import Mathlib

/-!
# Verification of the websnapshots visual-diff engine

Shallow embedding of the comparison core of `ai_compare.py` and
`compare_images.py` (region matching, pixel statistics, text diffing,
score fusion, visualization grid, CLI validation), together with proofs
of the specified properties.

Numeric conventions: Python ints are embedded as `ℤ`/`ℕ`; Python float
arithmetic on these values is embedded as exact rational arithmetic (`ℚ`).
-/

namespace WebSnapshots

/-- Bounding box `(x, y, width, height)`, as used throughout `ai_compare.py`. -/
structure Bbox where
  x : ℤ
  y : ℤ
  w : ℤ
  h : ℤ
deriving DecidableEq, Repr

/-- `ObjectRegion` dataclass (ai_compare.py lines 54-60). -/
structure ObjectRegion where
  label : String
  bbox : Bbox
  confidence : ℚ
  object_type : String
deriving DecidableEq, Repr

/-- `TextRegion` dataclass (ai_compare.py lines 37-42). -/
structure TextRegion where
  text : String
  bbox : Bbox
  confidence : ℚ
deriving DecidableEq, Repr

/-- `TextDiff` dataclass (ai_compare.py lines 45-51). -/
structure TextDiff where
  text_before : String
  text_after : String
  bbox : Bbox
  diff_type : String
deriving DecidableEq, Repr

/-- `ObjectDiff` dataclass (ai_compare.py lines 63-68). -/
structure ObjectDiff where
  object_before : Option ObjectRegion
  object_after : Option ObjectRegion
  diff_type : String
deriving DecidableEq, Repr

/-- `calculate_bbox_iou` (ai_compare.py lines 444-463). -/
def calculate_bbox_iou (bbox1 bbox2 : Bbox) : ℚ :=
  let xLeft := max bbox1.x bbox2.x
  let yTop := max bbox1.y bbox2.y
  let xRight := min (bbox1.x + bbox1.w) (bbox2.x + bbox2.w)
  let yBottom := min (bbox1.y + bbox1.h) (bbox2.y + bbox2.h)
  if xRight < xLeft ∨ yBottom < yTop then 0
  else
    let interArea := (xRight - xLeft) * (yBottom - yTop)
    let unionArea := bbox1.w * bbox1.h + bbox2.w * bbox2.h - interArea
    if 0 < unionArea then (interArea : ℚ) / (unionArea : ℚ) else 0

/-- The inner scan of both matching loops: walk `regions2` with running index
`j`, skip indices in `used`, and keep the candidate with strictly highest IoU
(`if iou > best_iou`).  Mirrors ai_compare.py lines 477-487 (similarity pass,
with `used` = `used_indices2`) and 519-526 (diff pass, with `used = []`). -/
def bestUnusedAux (b : Bbox) (used : List ℕ) :
    ℕ → List ObjectRegion → ℚ × Option (ℕ × ObjectRegion) → ℚ × Option (ℕ × ObjectRegion)
  | _, [], acc => acc
  | j, obj2 :: rest, acc =>
    if j ∈ used then bestUnusedAux b used (j + 1) rest acc
    else
      let iou := calculate_bbox_iou b obj2.bbox
      if acc.1 < iou then bestUnusedAux b used (j + 1) rest (iou, some (j, obj2))
      else bestUnusedAux b used (j + 1) rest acc

/-- One accepted pairing of the similarity-scoring pass: indices into the two
region lists and the IoU, as appended by `matched_pairs.append((i, best_j, best_iou))`. -/
structure SimPair where
  i : ℕ
  j : ℕ
  iou : ℚ
deriving DecidableEq, Repr

/-- One iteration of the matching loop of `calculate_object_similarity`
(ai_compare.py lines 477-489): find the best not-yet-used "after" region for
`obj1`; when the best IoU exceeds 0.3 record the pair and mark the index
used, otherwise leave the state unchanged. -/
def simStep (r2 : List ObjectRegion) (i : ℕ) (obj1 : ObjectRegion)
    (acc : List SimPair × List ℕ) : List SimPair × List ℕ :=
  let best := bestUnusedAux obj1.bbox acc.2 0 r2 (0, none)
  match best.2 with
  | some jo =>
    if 3/10 < best.1 then (acc.1 ++ [⟨i, jo.1, best.1⟩], acc.2 ++ [jo.1])
    else acc
  | none => acc

/-- The matching loop of `calculate_object_similarity` (ai_compare.py lines
473-489): iterate the "before" regions in input order. -/
def simMatchAux (r2 : List ObjectRegion) :
    ℕ → List ObjectRegion → List SimPair × List ℕ → List SimPair × List ℕ
  | _, [], acc => acc
  | i, obj1 :: rest, acc => simMatchAux r2 (i + 1) rest (simStep r2 i obj1 acc)

/-- The `matched_pairs` list built by `calculate_object_similarity`. -/
def objectMatchedPairs (regions1 regions2 : List ObjectRegion) : List SimPair :=
  (simMatchAux regions2 0 regions1 ([], [])).1

/-- `calculate_object_similarity` (ai_compare.py lines 466-504). -/
def calculate_object_similarity (regions1 regions2 : List ObjectRegion) : ℚ :=
  if regions1 = [] ∧ regions2 = [] then 1
  else if regions1 = [] ∨ regions2 = [] then 0
  else
    let pairs := objectMatchedPairs regions1 regions2
    if pairs = [] then 0
    else
      let avgIou := (pairs.map SimPair.iou).sum / (pairs.length : ℚ)
      let totalObjects := regions1.length + regions2.length
      let coverage : ℚ :=
        if 0 < totalObjects then (2 * pairs.length : ℚ) / (totalObjects : ℚ) else 0
      avgIou * coverage

/-- One accepted pairing of the diff-classification pass of
`detect_object_diffs`: indices and the two matched regions. -/
structure MatchEntry where
  i : ℕ
  obj1 : ObjectRegion
  j : ℕ
  obj2 : ObjectRegion
deriving DecidableEq, Repr

/-- One iteration of the matching loop of `detect_object_diffs`
(ai_compare.py lines 517-528): the best IoU is taken over ALL "after"
regions (no used-set is consulted) and the pair is accepted when it
exceeds 0.5. -/
def diffStep (r2 : List ObjectRegion) (i : ℕ) (obj1 : ObjectRegion) : Option MatchEntry :=
  let best := bestUnusedAux obj1.bbox [] 0 r2 (0, none)
  match best.2 with
  | some jo => if 1/2 < best.1 then some ⟨i, obj1, jo.1, jo.2⟩ else none
  | none => none

/-- The matching loop of `detect_object_diffs`: iterate "before" regions in
input order, collecting the accepted pairs. -/
def diffMatchesAux (r2 : List ObjectRegion) : ℕ → List ObjectRegion → List MatchEntry
  | _, [] => []
  | i, obj1 :: rest => (diffStep r2 i obj1).toList ++ diffMatchesAux r2 (i + 1) rest

/-- The accepted pairs of `detect_object_diffs` (those recorded in
`matched1` / `matched2`). -/
def diffMatches (regions1 regions2 : List ObjectRegion) : List MatchEntry :=
  diffMatchesAux regions2 0 regions1

/-- Squared distance between box centers,
`((x1+w1/2)-(x2+w2/2))**2 + ((y1+h1/2)-(y2+h2/2))**2` (ai_compare.py line 531). -/
def centerDistSq (b1 b2 : Bbox) : ℚ :=
  ((b1.x : ℚ) + (b1.w : ℚ) / 2 - ((b2.x : ℚ) + (b2.w : ℚ) / 2)) ^ 2 +
    ((b1.y : ℚ) + (b1.h : ℚ) / 2 - ((b2.y : ℚ) + (b2.h : ℚ) / 2)) ^ 2

/-- The "moved" test `center_dist > (w1*0.5)**2 + (h1*0.5)**2`
(ai_compare.py line 532), scaled by the BEFORE rectangle's dimensions. -/
def movedCond (b1 b2 : Bbox) : Bool :=
  decide (((b1.w : ℚ) * (1/2)) ^ 2 + ((b1.h : ℚ) * (1/2)) ^ 2 < centerDistSq b1 b2)

/-- The `ObjectDiff` appended for a pair classified as moved. -/
def mkMoved (e : MatchEntry) : ObjectDiff := ⟨some e.obj1, some e.obj2, "moved"⟩

/-- The moved diffs collected inside the matching loop of
`detect_object_diffs`, in "before"-region order. -/
def movedDiffs (regions1 regions2 : List ObjectRegion) : List ObjectDiff :=
  ((diffMatches regions1 regions2).filter
    (fun e => movedCond e.obj1.bbox e.obj2.bbox)).map mkMoved

/-- The removed diffs: "before" regions whose index never entered `matched1`
(ai_compare.py lines 541-547). -/
def removedDiffs (regions1 regions2 : List ObjectRegion) : List ObjectDiff :=
  ((regions1.enum.filter
      (fun p => decide (p.1 ∉ (diffMatches regions1 regions2).map MatchEntry.i))).map
    (fun p => ⟨some p.2, none, "removed"⟩))

/-- The added diffs: "after" regions whose index never entered `matched2`
(ai_compare.py lines 550-556). -/
def addedDiffs (regions1 regions2 : List ObjectRegion) : List ObjectDiff :=
  ((regions2.enum.filter
      (fun p => decide (p.1 ∉ (diffMatches regions1 regions2).map MatchEntry.j))).map
    (fun p => ⟨none, some p.2, "added"⟩))

/-- `detect_object_diffs` (ai_compare.py lines 507-560): moved diffs are
appended during the matching loop, then removed, then added. -/
def detect_object_diffs (regions1 regions2 : List ObjectRegion) : List ObjectDiff :=
  movedDiffs regions1 regions2 ++ removedDiffs regions1 regions2 ++ addedDiffs regions1 regions2

/-- Whitespace class of Python's `str.strip()` / `re` pattern `\s`
restricted to ASCII: space, tab, newline, carriage return, vertical tab,
form feed. -/
def isPyWhitespace (c : Char) : Bool :=
  c == ' ' || c == '\t' || c == '\n' || c == '\r' || c == '\x0b' || c == '\x0c'

/-- `text.strip()`: drop whitespace from both ends. -/
def stripChars (l : List Char) : List Char :=
  ((l.dropWhile isPyWhitespace).reverse.dropWhile isPyWhitespace).reverse

/-- `re.sub(r"\s+", " ", ·)`: replace every maximal whitespace run by a
single space.  The boolean flag records whether the previous character was
whitespace (i.e. whether we are inside a run already emitted). -/
def squeezeAux : List Char → Bool → List Char
  | [], _ => []
  | c :: rest, prevWs =>
    if isPyWhitespace c then
      if prevWs then squeezeAux rest true else ' ' :: squeezeAux rest true
    else c :: squeezeAux rest false

/-- `normalize_text` (ai_compare.py lines 567-569):
`re.sub(r"\s+", " ", text.strip())`. -/
def normalize_text (s : String) : String :=
  ⟨squeezeAux (stripChars s.data) false⟩

/-- The set built by `set(normalize_text(r.text) for r in regions)`. -/
def normSet (regions : List TextRegion) : Finset String :=
  (regions.map (fun r => normalize_text r.text)).toFinset

/-- `calculate_text_similarity` (ai_compare.py lines 572-587). -/
def calculate_text_similarity (regions1 regions2 : List TextRegion) : ℚ :=
  let texts1 := normSet regions1
  let texts2 := normSet regions2
  if texts1 = ∅ ∧ texts2 = ∅ then 1
  else if texts1 = ∅ ∨ texts2 = ∅ then 0
  else
    let intersection := (texts1 ∩ texts2).card
    let unionCard := (texts1 ∪ texts2).card
    if 0 < unionCard then (intersection : ℚ) / (unionCard : ℚ) else 0

/-- One insertion into a Python dict: overwrite the value when the key is
present (keeping the key's position), otherwise append at the end
(insertion order). -/
def dictInsert (m : List (String × TextRegion)) (k : String) (v : TextRegion) :
    List (String × TextRegion) :=
  if m.any (fun p => p.1 == k) then m.map (fun p => if p.1 = k then (k, v) else p)
  else m ++ [(k, v)]

/-- The dict comprehension `{normalize_text(r.text): r for r in regions}`
(ai_compare.py lines 598-599): later regions overwrite earlier ones that
normalize to the same string. -/
def buildDictAux : List TextRegion → List (String × TextRegion) → List (String × TextRegion)
  | [], m => m
  | r :: rest, m => buildDictAux rest (dictInsert m (normalize_text r.text) r)

/-- The normalized-text dict of a region list. -/
def buildDict (regions : List TextRegion) : List (String × TextRegion) :=
  buildDictAux regions []

/-- `detect_text_diffs` (ai_compare.py lines 590-620): removed diffs for
dict-1 keys absent from dict-2, then added diffs for dict-2 keys absent
from dict-1, each carrying the stored region's bbox. -/
def detect_text_diffs (regions1 regions2 : List TextRegion) : List TextDiff :=
  let texts1 := buildDict regions1
  let texts2 := buildDict regions2
  ((texts1.filter (fun p => !(texts2.any (fun q => q.1 == p.1)))).map
      (fun p => ⟨p.1, "", p.2.bbox, "removed"⟩)) ++
    ((texts2.filter (fun p => !(texts1.any (fun q => q.1 == p.1)))).map
      (fun p => ⟨"", p.1, p.2.bbox, "added"⟩))

/-- The statistics dict of `calculate_pixel_diff`. -/
structure PixelStats where
  total_pixels : ℕ
  different_pixels : ℕ
  diff_ratio : ℚ
  mean_diff : ℚ
  max_diff : ℕ
deriving DecidableEq, Repr

/-- One bin of `diff.histogram()` for a grayscale (`L`-mode) image given as
its list of pixel magnitudes: the number of pixels of exact value `k`. -/
def histBin (diff : List ℕ) (k : ℕ) : ℕ :=
  diff.countP (fun v => decide (v = k))

/-- `sum(hist[10:])` (ai_compare.py line 646): the histogram has 256 bins,
and bins 10 through 255 are summed. -/
def differentPixels (diff : List ℕ) : ℕ :=
  (((List.range 256).drop 10).map (histBin diff)).sum

/-- The statistics core of `calculate_pixel_diff` (ai_compare.py lines
627-657), taken after the library preprocessing: the input is the grayscale
difference canvas `ImageChops.difference(img1, img2).convert("L")` given as
its list of pixel magnitudes (each in 0..255).  Returns
`(similarity, stats)` exactly as the Python does:
`diff_ratio = (different_pixels / total_pixels) * 100 if total_pixels > 0 else 0`
and `similarity = 1.0 - diff_ratio / 100.0`. -/
def calculate_pixel_diff (diff : List ℕ) : ℚ × PixelStats :=
  let totalPixels := diff.length
  let different := differentPixels diff
  let diffRatio : ℚ :=
    if 0 < totalPixels then ((different : ℚ) / (totalPixels : ℚ)) * 100 else 0
  let similarity := 1 - diffRatio / 100
  (similarity,
    { total_pixels := totalPixels
      different_pixels := different
      diff_ratio := diffRatio
      mean_diff := if 0 < totalPixels then ((diff.map (fun v => (v : ℚ))).sum / (totalPixels : ℚ)) else 0
      max_diff := diff.foldl max 0 })

/-- The per-block scan of `create_diff_visualization` (ai_compare.py lines
727-735): the block anchored at `(x, y)` "has a diff" when some pixel
`(px, py)` with `x ≤ px < min (x+10) width`, `y ≤ py < min (y+10) height`
has difference magnitude strictly greater than the local `threshold = 30`.
`d px py` is `diff.getpixel((px, py))` on the grayscale difference canvas. -/
def blockHasDiff (d : ℕ → ℕ → ℕ) (width height x y : ℕ) : Bool :=
  (List.range' y (min (y + 10) height - y)).any (fun py =>
    (List.range' x (min (x + 10) width - x)).any (fun px => decide (30 < d px py)))

/-- The set of blocks outlined by the coarse pixel-diff grid of
`create_diff_visualization` (ai_compare.py lines 725-742): `y` and `x` run
over `range(0, height, 10)` and `range(0, width, 10)`, and a block is
outlined (on both halves) exactly when `blockHasDiff`. -/
def markedBlocks (d : ℕ → ℕ → ℕ) (width height : ℕ) : List (ℕ × ℕ) :=
  ((List.range' 0 ((height + 9) / 10) 10).map (fun y =>
    (List.range' 0 ((width + 9) / 10) 10).filterMap (fun x =>
      if blockHasDiff d width height x y then some (x, y) else none))).flatten

/-- The CLI arguments of `compare_images.py` relevant to validation:
`image1` and `image2` are optional positionals (`nargs="?"`, so `None` when
absent), `--threshold` is a float. -/
structure Args where
  image1 : Option String
  image2 : Option String
  threshold : ℚ
deriving DecidableEq, Repr

/-- Python truthiness test `not args.imageN`: true for `None` and for `""`. -/
def optStrFalsy : Option String → Bool
  | none => true
  | some s => s == ""

/-- The error message for missing images. -/
def missingImagesError : String := "エラー: 2つの画像ファイルパスを指定してください"

/-- The error message for an out-of-range threshold. -/
def thresholdRangeError : String := "エラー: --threshold は0から1の間で指定してください"

/-- `validate_args` (compare_images.py lines 633-649): returns
`(exit code, optional error message)`. -/
def validate_args (args : Args) : ℤ × Option String :=
  if optStrFalsy args.image1 || optStrFalsy args.image2 then (1, some missingImagesError)
  else if args.threshold < 0 ∨ 1 < args.threshold then (1, some thresholdRangeError)
  else (0, none)

/-- `calculate_overall_diff_score` (ai_compare.py lines 664-678); the
Python defaults are `pixel_weight=0.3, text_weight=0.4, object_weight=0.3`. -/
def calculate_overall_diff_score (pixelSim textSim objectSim pixelW textW objectW : ℚ) : ℚ :=
  pixelSim * pixelW + textSim * textW + objectSim * objectW

/-- `categorize_diff_score` (ai_compare.py lines 681-692). -/
def categorize_diff_score (score : ℚ) : String :=
  if 95/100 ≤ score then "ほぼ同一"
  else if 85/100 ≤ score then "わずかな差分"
  else if 70/100 ≤ score then "中程度の差分"
  else if 50/100 ≤ score then "大きな差分"
  else "完全に異なる"

/-- Spec-side restatement of the text-similarity contract: the Jaccard index
`|before ∩ after| / |before ∪ after|` of the two normalized-string sets, with
both-empty giving 1 and exactly-one-empty giving 0. -/
def textSimilaritySpec (regions1 regions2 : List TextRegion) : ℚ :=
  let texts1 := normSet regions1
  let texts2 := normSet regions2
  if texts1 = ∅ ∧ texts2 = ∅ then 1
  else if texts1 = ∅ ∨ texts2 = ∅ then 0
  else ((texts1 ∩ texts2).card : ℚ) / ((texts1 ∪ texts2).card : ℚ)

/-- Spec-side restatement of the object-similarity contract: average IoU over
accepted pairs times the coverage factor `(2 · matched) / (|before| + |after|)`,
with the stated edge cases. -/
def objectSimilaritySpec (regions1 regions2 : List ObjectRegion) : ℚ :=
  if regions1 = [] ∧ regions2 = [] then 1
  else if regions1 = [] ∨ regions2 = [] then 0
  else
    let pairs := objectMatchedPairs regions1 regions2
    if pairs = [] then 0
    else
      ((pairs.map SimPair.iou).sum / (pairs.length : ℚ)) *
        ((2 * pairs.length : ℚ) / ((regions1.length + regions2.length : ℕ) : ℚ))

/-- Loop invariant of the similarity matching pass: every recorded pair has
its before-index below the running index and IoU above the 0.3 threshold,
the before-indices are duplicate-free, and the used-index list is exactly
the list of chosen after-indices, itself duplicate-free. -/
def SimInv (i : ℕ) (st : List SimPair × List ℕ) : Prop :=
  (∀ p ∈ st.1, p.i < i ∧ 3/10 < p.iou) ∧
  (st.1.map SimPair.i).Nodup ∧
  st.2 = st.1.map SimPair.j ∧
  st.2.Nodup

/-- Transpose of an accepted pair (for stating the swap property). -/
def swapEntry (e : MatchEntry) : MatchEntry := ⟨e.j, e.obj2, e.i, e.obj1⟩

/-- Role swap on a diff: exchange before/after and map added ↔ removed. -/
def roleSwap (d : ObjectDiff) : ObjectDiff :=
  ⟨d.object_after, d.object_before,
    if d.diff_type = "added" then "removed"
    else if d.diff_type = "removed" then "added"
    else d.diff_type⟩

/-- Number of diffs of a given type. -/
def countType (ds : List ObjectDiff) (t : String) : ℕ :=
  ds.countP (fun d => d.diff_type == t)

/-- The normalized string a text diff is about (`text_before` for removed
diffs, `text_after` for added ones). -/
def diffKey (d : TextDiff) : String :=
  if d.diff_type = "removed" then d.text_before else d.text_after

/-- A concrete 10×10 region at the origin, used in counterexamples. -/
def sqRegion : ObjectRegion := ⟨"o", ⟨0, 0, 10, 10⟩, 1, "shape"⟩

/-- The same 10×10 region shifted right by 2 (IoU with `sqRegion` is 2/3). -/
def shiftedRegion : ObjectRegion := ⟨"o", ⟨2, 0, 10, 10⟩, 1, "shape"⟩

-- =========================================================================
-- Theorems
-- =========================================================================

/-- Counting elements of `k :: ks` splits into counting `k` and counting
`ks`, when `k ∉ ks`. -/
theorem countP_mem_cons (k : ℕ) (ks : List ℕ) (hk : k ∉ ks) (l : List ℕ) :
    l.countP (fun v => decide (v ∈ k :: ks)) =
      l.countP (fun v => decide (v = k)) + l.countP (fun v => decide (v ∈ ks)) := by
  induction l with
  | nil => rfl
  | cons a l ih =>
    rw [List.countP_cons, List.countP_cons, List.countP_cons, ih]
    by_cases hak : a = k
    · subst hak
      rw [if_pos (by simp), if_pos (by simp), if_neg (by simpa using hk)]
      omega
    · by_cases haks : a ∈ ks
      · rw [if_pos (by simp [haks]), if_neg (by simpa using hak), if_pos (by simpa using haks)]
        omega
      · rw [if_neg (by simp [hak, haks]), if_neg (by simpa using hak),
          if_neg (by simpa using haks)]
        omega

/-- Summing histogram bins over a duplicate-free list of values counts the
pixels whose value lies in that list. -/
theorem sum_histBins (ks : List ℕ) (hnd : ks.Nodup) (l : List ℕ) :
    (ks.map (histBin l)).sum = l.countP (fun v => decide (v ∈ ks)) := by
  induction ks with
  | nil => simp [List.countP_eq_zero]
  | cons k ks ih =>
    rcases List.nodup_cons.mp hnd with ⟨hk, hnd2⟩
    simp only [List.map_cons, List.sum_cons, ih hnd2, countP_mem_cons k ks hk, histBin]

set_option maxRecDepth 2000 in
/-- The histogram slice `hist[10:]` ranges over the values 10..255. -/
theorem drop_range_eq : (List.range 256).drop 10 = List.range' 10 246 := by decide

/-- `sum(hist[10:])` counts the pixels of magnitude AT LEAST 10, provided
every magnitude is a legal 8-bit value. -/
theorem differentPixels_eq_countP (l : List ℕ) (hb : ∀ v ∈ l, v ≤ 255) :
    differentPixels l = l.countP (fun v => decide (10 ≤ v)) := by
  unfold differentPixels
  rw [sum_histBins _ ((List.nodup_range _).sublist (List.drop_sublist _ _))]
  apply List.countP_congr
  intro v hv
  have hv255 := hb v hv
  simp only [decide_eq_true_eq, drop_range_eq, List.mem_range'_1]
  omega

/-- C2 (amended): the pixel-diff analyzer counts as differing the pixels of
magnitude ≥ 10 (the noise threshold is inclusive, `sum(hist[10:])`), reports
`diff_ratio` as the PERCENTAGE `100 · differing/total`, reports
`similarity = 1 − differing/total`, and on a zero-pixel canvas reports
similarity 1.0 and ratio 0 without dividing by zero. -/
theorem pixel_diff_stats (diff : List ℕ) (hb : ∀ v ∈ diff, v ≤ 255) :
    (calculate_pixel_diff diff).2.different_pixels = diff.countP (fun v => decide (10 ≤ v)) ∧
    (calculate_pixel_diff diff).2.diff_ratio =
      (if 0 < diff.length then
        ((diff.countP (fun v => decide (10 ≤ v)) : ℚ) / (diff.length : ℚ)) * 100 else 0) ∧
    (calculate_pixel_diff diff).1 =
      1 - (diff.countP (fun v => decide (10 ≤ v)) : ℚ) / (diff.length : ℚ) ∧
    (diff = [] →
      (calculate_pixel_diff diff).1 = 1 ∧ (calculate_pixel_diff diff).2.diff_ratio = 0) := by
  have hd := differentPixels_eq_countP diff hb
  refine ⟨?_, ?_, ?_, ?_⟩
  · simp only [calculate_pixel_diff, hd]
  · simp only [calculate_pixel_diff, hd]
  · simp only [calculate_pixel_diff, hd]
    by_cases h : 0 < diff.length
    · rw [if_pos h, mul_div_assoc]
      norm_num
    · rw [if_neg h]
      have h0 : diff.length = 0 := by omega
      have hdiff : diff = [] := List.length_eq_zero.mp h0
      subst hdiff
      simp
  · intro h
    subst h
    simp [calculate_pixel_diff]

/-- C2 witness: the canvas `[0, 10, 200]` (3 pixels, 2 of magnitude ≥ 10). -/
theorem pixel_diff_stats_witness :
    (calculate_pixel_diff [0, 10, 200]).2.different_pixels =
      ([0, 10, 200] : List ℕ).countP (fun v => decide (10 ≤ v)) ∧
    (calculate_pixel_diff [0, 10, 200]).2.diff_ratio =
      (if 0 < ([0, 10, 200] : List ℕ).length then
        ((([0, 10, 200] : List ℕ).countP (fun v => decide (10 ≤ v)) : ℚ) /
          (([0, 10, 200] : List ℕ).length : ℚ)) * 100 else 0) ∧
    (calculate_pixel_diff [0, 10, 200]).1 =
      1 - (([0, 10, 200] : List ℕ).countP (fun v => decide (10 ≤ v)) : ℚ) /
        (([0, 10, 200] : List ℕ).length : ℚ) :=
  ⟨(pixel_diff_stats [0, 10, 200] (by decide)).1,
   (pixel_diff_stats [0, 10, 200] (by decide)).2.1,
   (pixel_diff_stats [0, 10, 200] (by decide)).2.2.1⟩

/-- C6: the overall score equals `pixel·0.3 + text·0.4 + object·0.3` under the
default weights, and the score category is decided by top-down thresholds with
exact boundary values going to the higher category: ≥0.95 near-identical
(ほぼ同一), ≥0.85 minor (わずかな差分), ≥0.70 moderate (中程度の差分),
≥0.50 major (大きな差分), else completely different (完全に異なる). -/
theorem overall_score_weights_and_categories (pixelSim textSim objectSim score : ℚ) :
    calculate_overall_diff_score pixelSim textSim objectSim (3/10) (4/10) (3/10) =
      pixelSim * (3/10) + textSim * (4/10) + objectSim * (3/10) ∧
    (categorize_diff_score score = "ほぼ同一" ↔ 95/100 ≤ score) ∧
    (categorize_diff_score score = "わずかな差分" ↔ 85/100 ≤ score ∧ score < 95/100) ∧
    (categorize_diff_score score = "中程度の差分" ↔ 70/100 ≤ score ∧ score < 85/100) ∧
    (categorize_diff_score score = "大きな差分" ↔ 50/100 ≤ score ∧ score < 70/100) ∧
    (categorize_diff_score score = "完全に異なる" ↔ score < 50/100) := by
  refine ⟨rfl, ?_⟩
  unfold categorize_diff_score
  split_ifs with h1 h2 h3 h4 <;>
    refine ⟨?_, ?_, ?_, ?_, ?_⟩ <;> constructor <;>
      first
        | (intro h; first | (exfalso; revert h; decide) | constructor <;> linarith | linarith)
        | (intro h; rfl)
        | (rintro ⟨ha, hb⟩; first | rfl | linarith)

/-- C9: with both image arguments present, `validate_args` returns exit
code 0 and no error exactly when the threshold lies in [0, 1], and returns
exit code 1 with the single threshold-range error message exactly when the
threshold is out of range. -/
theorem threshold_validation (args : Args)
    (h1 : optStrFalsy args.image1 = false) (h2 : optStrFalsy args.image2 = false) :
    (validate_args args = (0, none) ↔ 0 ≤ args.threshold ∧ args.threshold ≤ 1) ∧
    (validate_args args = (1, some thresholdRangeError) ↔
      (args.threshold < 0 ∨ 1 < args.threshold)) := by
  unfold validate_args
  rw [h1, h2]
  simp only [Bool.or_self, Bool.false_or, if_false, Bool.false_eq_true, if_neg]
  split_ifs with h
  · constructor
    · constructor
      · intro hv; exact absurd hv (by simp)
      · rintro ⟨ha, hb⟩; rcases h with h | h <;> linarith
    · simp [h]
  · push_neg at h
    constructor
    · simp [h.1, h.2]
    · constructor
      · intro hv; exact absurd hv (by simp)
      · rintro (hc | hc) <;> linarith [h.1, h.2]

/-- C9 witness: a concrete out-of-range threshold 3/2 with both images
present. -/
theorem threshold_validation_witness :
    optStrFalsy (some "a.png") = false ∧ optStrFalsy (some "b.png") = false ∧
    ((validate_args ⟨some "a.png", some "b.png", 3/2⟩ = (0, none) ↔
        0 ≤ (3/2 : ℚ) ∧ (3/2 : ℚ) ≤ 1) ∧
      (validate_args ⟨some "a.png", some "b.png", 3/2⟩ = (1, some thresholdRangeError) ↔
        ((3/2 : ℚ) < 0 ∨ 1 < (3/2 : ℚ)))) :=
  ⟨by decide, by decide,
    threshold_validation ⟨some "a.png", some "b.png", 3/2⟩ (by decide) (by decide)⟩

/-- C1 counterexample: in the diff-classification pass (IoU threshold 0.5),
two identical "before" regions both match the single "after" region 0 — the
chosen "after" region is NOT marked claimed, so the matching is not
one-to-one. -/
theorem diff_match_reuse_counterexample :
    (diffMatches [sqRegion, sqRegion] [sqRegion]).map MatchEntry.j = [0, 0] ∧
    ¬ ((diffMatches [sqRegion, sqRegion] [sqRegion]).map MatchEntry.j).Nodup := by
  constructor
  · norm_num [diffMatches, diffMatchesAux, diffStep, bestUnusedAux,
      calculate_bbox_iou, sqRegion]
  · intro h
    rw [show (diffMatches [sqRegion, sqRegion] [sqRegion]).map MatchEntry.j = [0, 0] by
      norm_num [diffMatches, diffMatchesAux, diffStep, bestUnusedAux,
        calculate_bbox_iou, sqRegion]] at h
    exact absurd h (by decide)

/-- C3 counterexample: swapping the lists does not turn "added" into
"removed": with before = one square and after = two identical squares, the
run reports one added region, but the swapped run reports no removed
region (both "before" squares match the single "after" square). -/
theorem detect_swap_counterexample :
    countType (detect_object_diffs [sqRegion] [sqRegion, sqRegion]) "added" = 1 ∧
    countType (detect_object_diffs [sqRegion, sqRegion] [sqRegion]) "removed" = 0 := by
  constructor <;>
    norm_num [countType, detect_object_diffs, movedDiffs, removedDiffs, addedDiffs,
      diffMatches, diffMatchesAux, diffStep, bestUnusedAux, calculate_bbox_iou, sqRegion,
      movedCond, centerDistSq, List.enum, List.enumFrom, List.filter_cons,
      List.countP_cons, List.countP_map, Function.comp]

/-- C2 counterexample: a single pixel of difference magnitude exactly 10 is
counted as differing (the code sums `hist[10:]`, i.e. magnitude ≥ 10, not
strictly > 10), and the reported ratio is a percentage, not the fraction
differing/total. -/
theorem pixel_strict_counterexample :
    (calculate_pixel_diff [10]).2.different_pixels ≠
      ([10] : List ℕ).countP (fun v => decide (10 < v)) ∧
    (calculate_pixel_diff [50, 0]).2.diff_ratio ≠
      ((calculate_pixel_diff [50, 0]).2.different_pixels : ℚ) /
        ((calculate_pixel_diff [50, 0]).2.total_pixels : ℚ) := by
  have h1 := differentPixels_eq_countP [10] (by decide)
  have h2 := differentPixels_eq_countP [50, 0] (by decide)
  have hc1 : ([10] : List ℕ).countP (fun v => decide (10 ≤ v)) = 1 := by decide
  have hc2 : ([50, 0] : List ℕ).countP (fun v => decide (10 ≤ v)) = 1 := by decide
  constructor
  · simp only [calculate_pixel_diff, h1, hc1]
    decide
  · simp only [calculate_pixel_diff, h2, hc2, List.length_cons, List.length_nil]
    norm_num

set_option maxRecDepth 8000 in
/-- C8 counterexample: a 1×1 canvas whose only pixel has difference
magnitude 20 — above the configured noise threshold 10 — produces NO marked
block: the visualization grid uses a hardcoded threshold of 30. -/
theorem grid_threshold_counterexample :
    (10 : ℕ) < 20 ∧ (0, 0) ∉ markedBlocks (fun _ _ => 20) 1 1 := by
  decide

/-- The inner scan never selects an index from the used set. -/
theorem bestUnusedAux_some_not_used (b : Bbox) (used : List ℕ) (l : List ObjectRegion) :
    ∀ (j0 : ℕ) (acc : ℚ × Option (ℕ × ObjectRegion)),
      (∀ jo, acc.2 = some jo → jo.1 ∉ used) →
      ∀ jo, (bestUnusedAux b used j0 l acc).2 = some jo → jo.1 ∉ used := by
  induction l with
  | nil => intro j0 acc hacc jo h; exact hacc jo h
  | cons o rest ih =>
    intro j0 acc hacc jo h
    simp only [bestUnusedAux] at h
    split_ifs at h with h1 h2
    · exact ih _ _ hacc jo h
    · refine ih _ _ ?_ jo h
      intro jo2 hj
      simp only [Option.some.injEq] at hj
      rw [← hj]
      exact h1
    · exact ih _ _ hacc jo h

/-- One iteration of the similarity matching loop preserves the invariant. -/
theorem simStep_inv (r2 : List ObjectRegion) (i : ℕ) (o : ObjectRegion)
    (st : List SimPair × List ℕ) (h : SimInv i st) :
    SimInv (i + 1) (simStep r2 i o st) := by
  obtain ⟨h1, h2, h3, h4⟩ := h
  cases hb : (bestUnusedAux o.bbox st.2 0 r2 (0, none)).2 with
  | none =>
    simp only [simStep, hb]
    exact ⟨fun p hp => ⟨Nat.lt_succ_of_lt (h1 p hp).1, (h1 p hp).2⟩, h2, h3, h4⟩
  | some jo =>
    simp only [simStep, hb]
    by_cases hgt : 3/10 < (bestUnusedAux o.bbox st.2 0 r2 (0, none)).1
    · rw [if_pos hgt]
      have hnotused : jo.1 ∉ st.2 :=
        bestUnusedAux_some_not_used o.bbox st.2 r2 0 (0, none) (by simp) jo hb
      refine ⟨?_, ?_, ?_, ?_⟩
      · intro p hp
        rcases List.mem_append.mp hp with hp1 | hp2
        · exact ⟨Nat.lt_succ_of_lt (h1 p hp1).1, (h1 p hp1).2⟩
        · rcases List.mem_singleton.mp hp2 with rfl
          exact ⟨Nat.lt_succ_self i, hgt⟩
      · rw [List.map_append, List.nodup_append]
        refine ⟨h2, by simp, ?_⟩
        intro a ha hb2
        have hai : a = i := by simpa using hb2
        rcases List.mem_map.mp ha with ⟨p, hp, hpi⟩
        have hlt := (h1 p hp).1
        omega
      · simp [h3]
      · rw [List.nodup_append]
        refine ⟨h4, List.nodup_singleton _, ?_⟩
        intro a ha hb2
        rcases List.mem_singleton.mp hb2 with rfl
        exact hnotused ha
    · rw [if_neg hgt]
      exact ⟨fun p hp => ⟨Nat.lt_succ_of_lt (h1 p hp).1, (h1 p hp).2⟩, h2, h3, h4⟩

/-- The similarity matching loop preserves the invariant. -/
theorem simMatchAux_inv (r2 : List ObjectRegion) (l : List ObjectRegion) :
    ∀ (i : ℕ) (st : List SimPair × List ℕ),
      SimInv i st → ∃ k, SimInv k (simMatchAux r2 i l st) := by
  induction l with
  | nil => intro i st h; exact ⟨i, h⟩
  | cons o rest ih =>
    intro i st h
    exact ih (i + 1) _ (simStep_inv r2 i o st h)

/-- An accepted diff-pass pair records the current loop index and region. -/
theorem diffStep_some (r2 : List ObjectRegion) (i : ℕ) (o : ObjectRegion)
    (e : MatchEntry) (h : diffStep r2 i o = some e) : e.i = i ∧ e.obj1 = o := by
  cases hb : (bestUnusedAux o.bbox [] 0 r2 (0, none)).2 with
  | none =>
    simp only [diffStep, hb] at h
    exact Option.noConfusion h
  | some jo =>
    simp only [diffStep, hb] at h
    split_ifs at h
    simp only [Option.some.injEq] at h
    rw [← h]
    exact ⟨rfl, rfl⟩

/-- Every pair accepted by the diff pass has before-index at least the
starting index. -/
theorem diffMatchesAux_i_ge (r2 : List ObjectRegion) (l : List ObjectRegion) :
    ∀ (i : ℕ) (e : MatchEntry), e ∈ diffMatchesAux r2 i l → i ≤ e.i := by
  induction l with
  | nil => intro i e h; simp [diffMatchesAux] at h
  | cons o rest ih =>
    intro i e h
    simp only [diffMatchesAux, List.mem_append] at h
    rcases h with h | h
    · cases hd : diffStep r2 i o with
      | none => rw [hd] at h; simp at h
      | some e2 =>
        rw [hd] at h
        simp only [Option.toList_some, List.mem_singleton] at h
        subst h
        exact le_of_eq (diffStep_some r2 i o e hd).1.symm
    · exact Nat.le_of_succ_le (ih (i + 1) e h)

/-- The before-indices of the diff pass are duplicate-free (each "before"
region is consumed once). -/
theorem diffMatchesAux_i_nodup (r2 : List ObjectRegion) (l : List ObjectRegion) :
    ∀ (i : ℕ), ((diffMatchesAux r2 i l).map MatchEntry.i).Nodup := by
  induction l with
  | nil => intro i; simp [diffMatchesAux]
  | cons o rest ih =>
    intro i
    simp only [diffMatchesAux, List.map_append, List.nodup_append]
    refine ⟨?_, ih (i + 1), ?_⟩
    · cases hd : diffStep r2 i o <;> simp
    · intro a ha hb2
      cases hd : diffStep r2 i o with
      | none => rw [hd] at ha; simp at ha
      | some e =>
        rw [hd] at ha
        simp only [Option.toList_some, List.map_cons, List.map_nil,
          List.mem_singleton] at ha
        rcases List.mem_map.mp hb2 with ⟨e2, he2, rfl⟩
        have hge := diffMatchesAux_i_ge r2 rest (i + 1) e2 he2
        have hei := (diffStep_some r2 i o e hd).1
        omega

/-- C1 (amended): the similarity-scoring pass (IoU threshold 0.3) is a
one-to-one partial bijection — each "before" index and each "after" index
occurs in at most one matched pair, because chosen "after" regions are
marked claimed.  The diff-classification pass (IoU threshold 0.5) is
one-to-one on the "before" side only: it does NOT mark chosen "after"
regions claimed, so an "after" region can be matched by several "before"
regions (see the counterexample). -/
theorem region_matching_one_to_one (r1 r2 : List ObjectRegion) :
    ((objectMatchedPairs r1 r2).map SimPair.i).Nodup ∧
    ((objectMatchedPairs r1 r2).map SimPair.j).Nodup ∧
    ((diffMatches r1 r2).map MatchEntry.i).Nodup := by
  have h0 : SimInv 0 ([], []) := ⟨by simp, by simp, by simp, by simp⟩
  obtain ⟨k, hk1, hk2, hk3, hk4⟩ := simMatchAux_inv r2 r1 0 ([], []) h0
  refine ⟨hk2, ?_, diffMatchesAux_i_nodup r2 r1 0⟩
  rw [objectMatchedPairs, ← hk3]
  exact hk4

/-- C4: the object similarity score equals the average IoU over accepted
pairs multiplied by the coverage factor `(2·matched)/(|before|+|after|)`,
with value 1 when both lists are empty, 0 when exactly one is empty, and 0
when no pair clears the 0.3 IoU threshold (all spelled out in
`objectSimilaritySpec`); moreover every accepted pair's IoU exceeds 0.3. -/
theorem object_similarity_formula (r1 r2 : List ObjectRegion) :
    calculate_object_similarity r1 r2 = objectSimilaritySpec r1 r2 ∧
    ∀ p ∈ objectMatchedPairs r1 r2, 3/10 < p.iou := by
  have h0 : SimInv 0 ([], []) := ⟨by simp, by simp, by simp, by simp⟩
  obtain ⟨k, hk1, hk2, hk3, hk4⟩ := simMatchAux_inv r2 r1 0 ([], []) h0
  refine ⟨?_, fun p hp => (hk1 p hp).2⟩
  unfold calculate_object_similarity objectSimilaritySpec
  split_ifs with hb he
  · rfl
  · rfl
  · by_cases hp : objectMatchedPairs r1 r2 = []
    · simp [hp]
    · have hr1 : r1 ≠ [] := fun hcon => he (Or.inl hcon)
      have hpos : 0 < r1.length + r2.length := by
        have := List.length_pos.mpr hr1
        omega
      simp only [if_neg hp, if_pos hpos]

/-- C4 witness: one 10×10 box against the same box shifted by 2 (IoU 2/3). -/
theorem object_similarity_formula_witness :
    calculate_object_similarity [sqRegion] [shiftedRegion] =
      objectSimilaritySpec [sqRegion] [shiftedRegion] ∧
    3/10 < (SimPair.mk 0 0 (2/3)).iou :=
  ⟨(object_similarity_formula [sqRegion] [shiftedRegion]).1,
   (object_similarity_formula [sqRegion] [shiftedRegion]).2 ⟨0, 0, 2/3⟩ (by
      norm_num [objectMatchedPairs, simMatchAux, simStep, bestUnusedAux,
        calculate_bbox_iou, sqRegion, shiftedRegion])⟩

/-- The Boolean moved test spelled out as the squared-distance inequality of
the spec. -/
theorem movedCond_iff (b1 b2 : Bbox) :
    movedCond b1 b2 = true ↔
      ((b1.w : ℚ) * (1/2)) ^ 2 + ((b1.h : ℚ) * (1/2)) ^ 2 <
        ((b1.x : ℚ) + (b1.w : ℚ) / 2 - ((b2.x : ℚ) + (b2.w : ℚ) / 2)) ^ 2 +
          ((b1.y : ℚ) + (b1.h : ℚ) / 2 - ((b2.y : ℚ) + (b2.h : ℚ) / 2)) ^ 2 := by
  simp [movedCond, centerDistSq]

/-- C5: a pair accepted by the diff-classification pass (IoU > 0.5) appears
as a "moved" diff exactly when `dx² + dy² > (0.5·w)² + (0.5·h)²`, where `w`
and `h` are the BEFORE rectangle's dimensions; otherwise the pair produces
no diff entry (every output diff with both regions present is "moved"). -/
theorem moved_classification (r1 r2 : List ObjectRegion) (e : MatchEntry)
    (he : e ∈ diffMatches r1 r2) :
    ((ObjectDiff.mk (some e.obj1) (some e.obj2) "moved") ∈ detect_object_diffs r1 r2 ↔
      ((e.obj1.bbox.w : ℚ) * (1/2)) ^ 2 + ((e.obj1.bbox.h : ℚ) * (1/2)) ^ 2 <
        ((e.obj1.bbox.x : ℚ) + (e.obj1.bbox.w : ℚ) / 2 -
            ((e.obj2.bbox.x : ℚ) + (e.obj2.bbox.w : ℚ) / 2)) ^ 2 +
          ((e.obj1.bbox.y : ℚ) + (e.obj1.bbox.h : ℚ) / 2 -
            ((e.obj2.bbox.y : ℚ) + (e.obj2.bbox.h : ℚ) / 2)) ^ 2) ∧
    (∀ df ∈ detect_object_diffs r1 r2,
      df.object_before ≠ none → df.object_after ≠ none → df.diff_type = "moved") := by
  constructor
  · rw [← movedCond_iff]
    constructor
    · intro hmem
      rcases List.mem_append.mp hmem with hmem2 | hadd
      · rcases List.mem_append.mp hmem2 with hmov | hrem
        · rcases List.mem_map.mp hmov with ⟨e2, he2, heq⟩
          have hf := List.mem_filter.mp he2
          have h1 : e2.obj1 = e.obj1 := by
            have := congrArg ObjectDiff.object_before heq
            simpa [mkMoved] using this
          have h2 : e2.obj2 = e.obj2 := by
            have := congrArg ObjectDiff.object_after heq
            simpa [mkMoved] using this
          rw [← h1, ← h2]
          exact hf.2
        · rcases List.mem_map.mp hrem with ⟨p, hp, heq⟩
          have := congrArg ObjectDiff.object_after heq
          simp at this
      · rcases List.mem_map.mp hadd with ⟨p, hp, heq⟩
        have := congrArg ObjectDiff.object_before heq
        simp at this
    · intro hcond
      apply List.mem_append.mpr
      apply Or.inl
      apply List.mem_append.mpr
      apply Or.inl
      apply List.mem_map.mpr
      exact ⟨e, List.mem_filter.mpr ⟨he, hcond⟩, rfl⟩
  · intro df hdf hbne hane
    rcases List.mem_append.mp hdf with hdf2 | hadd
    · rcases List.mem_append.mp hdf2 with hmov | hrem
      · rcases List.mem_map.mp hmov with ⟨e2, he2, heq⟩
        rw [← heq]
        rfl
      · rcases List.mem_map.mp hrem with ⟨p, hp, heq⟩
        rw [← heq] at hane
        simp at hane
    · rcases List.mem_map.mp hadd with ⟨p, hp, heq⟩
      rw [← heq] at hbne
      simp at hbne

/-- C5 witness: the pair (10×10 box, same box shifted by 2) has IoU 2/3 >
0.5, and its center displacement 2 does not exceed half the diagonal, so
both sides of the equivalence are false. -/
theorem moved_classification_witness :
    (ObjectDiff.mk (some sqRegion) (some shiftedRegion) "moved") ∈
        detect_object_diffs [sqRegion] [shiftedRegion] ↔
      ((sqRegion.bbox.w : ℚ) * (1/2)) ^ 2 + ((sqRegion.bbox.h : ℚ) * (1/2)) ^ 2 <
        ((sqRegion.bbox.x : ℚ) + (sqRegion.bbox.w : ℚ) / 2 -
            ((shiftedRegion.bbox.x : ℚ) + (shiftedRegion.bbox.w : ℚ) / 2)) ^ 2 +
          ((sqRegion.bbox.y : ℚ) + (sqRegion.bbox.h : ℚ) / 2 -
            ((shiftedRegion.bbox.y : ℚ) + (shiftedRegion.bbox.h : ℚ) / 2)) ^ 2 :=
  (moved_classification [sqRegion] [shiftedRegion] ⟨0, sqRegion, 0, shiftedRegion⟩ (by
      norm_num [diffMatches, diffMatchesAux, diffStep, bestUnusedAux,
        calculate_bbox_iou, sqRegion, shiftedRegion])).1

/-- The moved test is symmetric for rectangles of equal dimensions (the
squared center distance is symmetric; the threshold uses the before
rectangle's width and height). -/
theorem movedCond_symm (b1 b2 : Bbox) (hw : b1.w = b2.w) (hh : b1.h = b2.h) :
    movedCond b2 b1 = movedCond b1 b2 := by
  unfold movedCond
  rw [decide_eq_decide]
  have hd : centerDistSq b2 b1 = centerDistSq b1 b2 := by
    unfold centerDistSq
    ring
  rw [hd, ← hw, ← hh]

/-- Transposing a matched pair corresponds to role-swapping its moved diff. -/
theorem mkMoved_swap (e : MatchEntry) : mkMoved (swapEntry e) = roleSwap (mkMoved e) := by
  simp [mkMoved, swapEntry, roleSwap]

/-- C3 (amended): swapping the "before" and "after" lists turns every added
diff into the role-swapped removed diff and vice versa, and preserves every
moved pairing with roles swapped, PROVIDED (a) the greedy matching of the
swapped run is the transpose of the original run's matching, and (b) each
matched pair's rectangles have equal width and height (the moved test is
scaled by the before rectangle only).  Without these hypotheses the claim
fails — see the counterexample. -/
theorem detect_object_diffs_swap (r1 r2 : List ObjectRegion)
    (hswap : diffMatches r2 r1 = (diffMatches r1 r2).map swapEntry)
    (hdims : ∀ e ∈ diffMatches r1 r2,
      e.obj1.bbox.w = e.obj2.bbox.w ∧ e.obj1.bbox.h = e.obj2.bbox.h) :
    detect_object_diffs r2 r1 =
      (movedDiffs r1 r2).map roleSwap ++ (addedDiffs r1 r2).map roleSwap ++
        (removedDiffs r1 r2).map roleSwap := by
  have hmoved : movedDiffs r2 r1 = (movedDiffs r1 r2).map roleSwap := by
    unfold movedDiffs
    rw [hswap, List.filter_map]
    rw [List.filter_congr (fun e hme => ?_), List.map_map, List.map_map]
    · congr 1
    · show ((fun e => movedCond e.obj1.bbox e.obj2.bbox) ∘ swapEntry) e =
        movedCond e.obj1.bbox e.obj2.bbox
      have hd := hdims e hme
      simp only [Function.comp, swapEntry]
      exact movedCond_symm e.obj1.bbox e.obj2.bbox hd.1 hd.2
  have hij : (diffMatches r2 r1).map MatchEntry.i = (diffMatches r1 r2).map MatchEntry.j := by
    rw [hswap, List.map_map]
    rfl
  have hji : (diffMatches r2 r1).map MatchEntry.j = (diffMatches r1 r2).map MatchEntry.i := by
    rw [hswap, List.map_map]
    rfl
  have hremoved : removedDiffs r2 r1 = (addedDiffs r1 r2).map roleSwap := by
    unfold removedDiffs addedDiffs
    rw [hij, List.map_map]
    congr 1
  have hadded : addedDiffs r2 r1 = (removedDiffs r1 r2).map roleSwap := by
    unfold addedDiffs removedDiffs
    rw [hji, List.map_map]
    congr 1
  unfold detect_object_diffs
  rw [hmoved, hremoved, hadded]

/-- C3 witness: a single equal-dimension matched pair, where the two runs
accept transposed matchings. -/
theorem detect_object_diffs_swap_witness :
    detect_object_diffs [shiftedRegion] [sqRegion] =
      (movedDiffs [sqRegion] [shiftedRegion]).map roleSwap ++
        (addedDiffs [sqRegion] [shiftedRegion]).map roleSwap ++
        (removedDiffs [sqRegion] [shiftedRegion]).map roleSwap :=
  detect_object_diffs_swap [sqRegion] [shiftedRegion]
    (by norm_num [diffMatches, diffMatchesAux, diffStep, bestUnusedAux,
      calculate_bbox_iou, sqRegion, shiftedRegion, swapEntry])
    (by
      intro e he
      rw [show diffMatches [sqRegion] [shiftedRegion] = [⟨0, sqRegion, 0, shiftedRegion⟩] by
        norm_num [diffMatches, diffMatchesAux, diffStep, bestUnusedAux,
          calculate_bbox_iou, sqRegion, shiftedRegion]] at he
      rcases List.mem_singleton.mp he with rfl
      exact ⟨rfl, rfl⟩)

/-- The text-similarity code agrees with the Jaccard specification (the
implementation's extra union-cardinality guard never fires: when both sets
are nonempty the union is nonempty). -/
theorem text_sim_eq_spec (r1 r2 : List TextRegion) :
    calculate_text_similarity r1 r2 = textSimilaritySpec r1 r2 := by
  unfold calculate_text_similarity textSimilaritySpec
  dsimp only
  split_ifs with hb he hg
  · rfl
  · rfl
  · rfl
  · exfalso
    have h1 : normSet r1 ≠ ∅ := fun hcon => he (Or.inl hcon)
    have hne : (normSet r1).Nonempty := Finset.nonempty_iff_ne_empty.mpr h1
    have hu : (normSet r1 ∪ normSet r2).Nonempty :=
      hne.mono Finset.subset_union_left
    exact hg (Finset.card_pos.mpr hu)

/-- C7: text similarity is the Jaccard index of the two normalized-string
sets (1 when both sets are empty, 0 when exactly one is empty), and
normalization trims and collapses internal whitespace runs: "Hello World"
and "Hello  World" normalize equal, giving similarity 1 and no text diffs. -/
theorem text_similarity_jaccard :
    (∀ r1 r2 : List TextRegion, calculate_text_similarity r1 r2 = textSimilaritySpec r1 r2) ∧
    normalize_text "Hello  World" = normalize_text "Hello World" ∧
    calculate_text_similarity [⟨"Hello World", ⟨0, 0, 100, 20⟩, 1⟩]
        [⟨"Hello  World", ⟨0, 0, 100, 20⟩, 1⟩] = 1 ∧
    detect_text_diffs [⟨"Hello World", ⟨0, 0, 100, 20⟩, 1⟩]
        [⟨"Hello  World", ⟨0, 0, 100, 20⟩, 1⟩] = [] := by
  refine ⟨text_sim_eq_spec, by decide, ?_, by decide⟩
  unfold calculate_text_similarity
  dsimp only
  rw [if_neg (by decide), if_neg (by decide), if_pos (by decide)]
  rw [show ((normSet [TextRegion.mk "Hello World" ⟨0, 0, 100, 20⟩ 1] ∩
      normSet [TextRegion.mk "Hello  World" ⟨0, 0, 100, 20⟩ 1]).card) = 1 from by decide]
  rw [show ((normSet [TextRegion.mk "Hello World" ⟨0, 0, 100, 20⟩ 1] ∪
      normSet [TextRegion.mk "Hello  World" ⟨0, 0, 100, 20⟩ 1]).card) = 1 from by decide]
  norm_num

/-- The per-block scan fires exactly when some pixel of the block has
magnitude strictly above 30. -/
theorem blockHasDiff_iff (d : ℕ → ℕ → ℕ) (width height x y : ℕ) :
    blockHasDiff d width height x y = true ↔
      ∃ px py, x ≤ px ∧ px < min (x + 10) width ∧ y ≤ py ∧ py < min (y + 10) height ∧
        30 < d px py := by
  unfold blockHasDiff
  simp only [List.any_eq_true, List.mem_range'_1, decide_eq_true_eq]
  constructor
  · rintro ⟨py, ⟨hy1, hy2⟩, px, ⟨hx1, hx2⟩, h30⟩
    exact ⟨px, py, hx1, by omega, hy1, by omega, h30⟩
  · rintro ⟨px, py, hx1, hx2, hy1, hy2, h30⟩
    exact ⟨py, ⟨hy1, by omega⟩, px, ⟨hx1, by omega⟩, h30⟩

/-- C8 (amended): the coarse pixel-diff grid partitions the canvas into
10-pixel blocks anchored at multiples of 10, and outlines (on both halves)
exactly those blocks containing at least one pixel whose difference
magnitude strictly exceeds 30 — the threshold hardcoded in
`create_diff_visualization`, not the configured noise threshold 10. -/
theorem marked_blocks_iff (d : ℕ → ℕ → ℕ) (width height x y : ℕ) :
    (x, y) ∈ markedBlocks d width height ↔
      (10 ∣ x ∧ 10 ∣ y ∧ x < width ∧ y < height ∧
        ∃ px py, x ≤ px ∧ px < min (x + 10) width ∧ y ≤ py ∧ py < min (y + 10) height ∧
          30 < d px py) := by
  unfold markedBlocks
  rw [List.mem_flatten]
  constructor
  · rintro ⟨l, hl, hxy⟩
    rcases List.mem_map.mp hl with ⟨y0, hy0, rfl⟩
    rcases List.mem_filterMap.mp hxy with ⟨x0, hx0, hfx⟩
    rcases List.mem_range'.mp hy0 with ⟨jy, hjy, rfl⟩
    rcases List.mem_range'.mp hx0 with ⟨jx, hjx, rfl⟩
    by_cases hbd : blockHasDiff d width height (0 + 10 * jx) (0 + 10 * jy) = true
    · rw [if_pos hbd] at hfx
      have hx : 0 + 10 * jx = x ∧ 0 + 10 * jy = y := by
        have := Option.some.inj hfx
        exact ⟨congrArg Prod.fst this, congrArg Prod.snd this⟩
      rcases hx with ⟨hx1, hy1⟩
      subst hx1
      subst hy1
      have hpix := (blockHasDiff_iff d width height _ _).mp hbd
      rcases hpix with ⟨px, py, h1, h2, h3, h4, h5⟩
      refine ⟨⟨jx, by omega⟩, ⟨jy, by omega⟩, by omega, by omega,
        px, py, h1, h2, h3, h4, h5⟩
    · rw [if_neg hbd] at hfx
      exact Option.noConfusion hfx
  · rintro ⟨⟨jx, rfl⟩, ⟨jy, rfl⟩, hxw, hyh, px, py, h1, h2, h3, h4, h5⟩
    refine ⟨(List.range' 0 ((width + 9) / 10) 10).filterMap (fun x0 =>
        if blockHasDiff d width height x0 (10 * jy) then some (x0, 10 * jy) else none),
      ?_, ?_⟩
    · apply List.mem_map.mpr
      refine ⟨10 * jy, ?_, rfl⟩
      apply List.mem_range'.mpr
      exact ⟨jy, by omega, by omega⟩
    · apply List.mem_filterMap.mpr
      refine ⟨10 * jx, ?_, ?_⟩
      · apply List.mem_range'.mpr
        exact ⟨jx, by omega, by omega⟩
      · rw [if_pos]
        apply (blockHasDiff_iff d width height _ _).mpr
        exact ⟨px, py, h1, h2, h3, h4, h5⟩

/-- One dict insertion preserves the dict invariant: keys stay
duplicate-free, and each stored value is the LAST region (in input order of
the regions processed so far) whose normalized text equals the key. -/
theorem dictInsert_inv (processed : List TextRegion) (m : List (String × TextRegion))
    (r : TextRegion)
    (hkeys : (m.map Prod.fst).Nodup)
    (hvals : ∀ q ∈ m,
      (processed.filter (fun s => normalize_text s.text == q.1)).getLast? = some q.2) :
    (((dictInsert m (normalize_text r.text) r).map Prod.fst).Nodup) ∧
    (∀ q ∈ dictInsert m (normalize_text r.text) r,
      ((processed ++ [r]).filter (fun s => normalize_text s.text == q.1)).getLast?
        = some q.2) := by
  set k := normalize_text r.text with hk
  cases hcase : m.any (fun p => p.1 == k) with
  | true =>
    rw [dictInsert, if_pos hcase]
    constructor
    · have hcomp : (Prod.fst ∘ fun p : String × TextRegion =>
          if p.1 = k then (k, r) else p) = Prod.fst := by
        funext p
        by_cases hpk : p.1 = k
        · simp [hpk]
        · simp [hpk]
      rw [List.map_map, hcomp]
      exact hkeys
    · intro q hq
      rcases List.mem_map.mp hq with ⟨p, hp, rfl⟩
      by_cases hpk : p.1 = k
      · rw [if_pos hpk, List.filter_append]
        have hfr : List.filter (fun s => normalize_text s.text == (k, r).1) [r] = [r] := by
          simp [← hk]
        rw [hfr, List.getLast?_concat]
      · rw [if_neg hpk, List.filter_append]
        have hfr : List.filter (fun s => normalize_text s.text == p.1) [r] = [] := by
          simp only [List.filter_cons, List.filter_nil, ← hk, beq_iff_eq]
          rw [if_neg]
          intro hcon
          exact hpk hcon.symm
        rw [hfr, List.append_nil]
        exact hvals p hp
  | false =>
    have hnk : ∀ p ∈ m, p.1 ≠ k := by
      intro p hp hcon
      have htrue : m.any (fun p => p.1 == k) = true :=
        List.any_eq_true.mpr ⟨p, hp, by simp [hcon]⟩
      rw [hcase] at htrue
      exact Bool.noConfusion htrue
    rw [dictInsert, if_neg (by simp [hcase])]
    constructor
    · rw [List.map_append, List.nodup_append]
      refine ⟨hkeys, by simp, ?_⟩
      intro a ha hb
      rcases List.mem_map.mp ha with ⟨p, hp, rfl⟩
      have hak : p.1 = k := by simpa using hb
      exact hnk p hp hak
    · intro q hq
      rcases List.mem_append.mp hq with hq | hq
      · rw [List.filter_append]
        have hfr : List.filter (fun s => normalize_text s.text == q.1) [r] = [] := by
          simp only [List.filter_cons, List.filter_nil, ← hk, beq_iff_eq]
          rw [if_neg]
          intro hcon
          exact hnk q hq hcon.symm
        rw [hfr, List.append_nil]
        exact hvals q hq
      · rcases List.mem_singleton.mp hq with rfl
        rw [List.filter_append]
        have hfr : List.filter (fun s => normalize_text s.text == (k, r).1) [r] = [r] := by
          simp [← hk]
        rw [hfr, List.getLast?_concat]

/-- The dict-building loop preserves the invariant. -/
theorem buildDictAux_inv (rest : List TextRegion) :
    ∀ (processed : List TextRegion) (m : List (String × TextRegion)),
      (m.map Prod.fst).Nodup →
      (∀ q ∈ m,
        (processed.filter (fun s => normalize_text s.text == q.1)).getLast? = some q.2) →
      ((buildDictAux rest m).map Prod.fst).Nodup ∧
      ∀ q ∈ buildDictAux rest m,
        ((processed ++ rest).filter (fun s => normalize_text s.text == q.1)).getLast?
          = some q.2 := by
  induction rest with
  | nil =>
    intro processed m h1 h2
    exact ⟨h1, by simpa [buildDictAux] using h2⟩
  | cons r rest ih =>
    intro processed m h1 h2
    obtain ⟨hs1, hs2⟩ := dictInsert_inv processed m r h1 h2
    have hrec := ih (processed ++ [r]) _ hs1 hs2
    rw [buildDictAux]
    refine ⟨hrec.1, ?_⟩
    intro q hq
    have := hrec.2 q hq
    simpa [List.append_assoc] using this

/-- The normalized-text dict of a region list: keys are duplicate-free and
each value is the last region of the list with that normalized text. -/
theorem buildDict_inv (rs : List TextRegion) :
    ((buildDict rs).map Prod.fst).Nodup ∧
    ∀ q ∈ buildDict rs,
      (rs.filter (fun s => normalize_text s.text == q.1)).getLast? = some q.2 := by
  have h := buildDictAux_inv rs [] [] (by simp) (by simp)
  exact ⟨h.1, by simpa [buildDict] using h.2⟩

/-- C10: text diff detection deduplicates by normalized string — it emits
at most one TextDiff per distinct normalized string (the emitted normalized
strings are pairwise distinct, never one diff per region), and the bounding
box reported for a string is that of the LAST region in input order whose
text normalizes to it. -/
theorem text_diff_dedup (r1 r2 : List TextRegion) :
    ((detect_text_diffs r1 r2).map diffKey).Nodup ∧
    ∀ td ∈ detect_text_diffs r1 r2,
      (td.diff_type = "removed" →
        ((r1.filter (fun s => normalize_text s.text == td.text_before)).getLast?).map
          TextRegion.bbox = some td.bbox) ∧
      (td.diff_type = "added" →
        ((r2.filter (fun s => normalize_text s.text == td.text_after)).getLast?).map
          TextRegion.bbox = some td.bbox) := by
  obtain ⟨hk1, hv1⟩ := buildDict_inv r1
  obtain ⟨hk2, hv2⟩ := buildDict_inv r2
  constructor
  · unfold detect_text_diffs
    dsimp only
    rw [List.map_append, List.map_map, List.map_map]
    have hfr : (diffKey ∘ fun p : String × TextRegion =>
        (⟨p.1, "", p.2.bbox, "removed"⟩ : TextDiff)) = Prod.fst := by
      funext p
      simp [diffKey]
    have hfa : (diffKey ∘ fun p : String × TextRegion =>
        (⟨"", p.1, p.2.bbox, "added"⟩ : TextDiff)) = Prod.fst := by
      funext p
      simp [diffKey]
    rw [hfr, hfa, List.nodup_append]
    refine ⟨hk1.sublist ((List.filter_sublist _).map Prod.fst), ?_, ?_⟩
    · exact hk2.sublist ((List.filter_sublist _).map Prod.fst)
    · intro a ha hb
      rcases List.mem_map.mp ha with ⟨p, hp, rfl⟩
      rcases List.mem_map.mp hb with ⟨q, hq, hqa⟩
      have hpf := List.mem_filter.mp hp
      have hqf := List.mem_filter.mp hq
      have hqmem : q ∈ buildDict r2 := List.mem_of_mem_filter hq
      have hany : (buildDict r2).any (fun w => w.1 == p.1) = true :=
        List.any_eq_true.mpr ⟨q, hqmem, by simp [hqa]⟩
      have := hpf.2
      simp only [Bool.not_eq_true'] at this
      rw [hany] at this
      exact Bool.noConfusion this
  · intro td htd
    unfold detect_text_diffs at htd
    rcases List.mem_append.mp htd with hrem | hadd
    · rcases List.mem_map.mp hrem with ⟨p, hp, rfl⟩
      have hpm : p ∈ buildDict r1 := List.mem_of_mem_filter hp
      constructor
      · intro _
        show ((r1.filter (fun s => normalize_text s.text == p.1)).getLast?).map
          TextRegion.bbox = some p.2.bbox
        rw [hv1 p hpm]
        rfl
      · intro hcon
        simp at hcon
    · rcases List.mem_map.mp hadd with ⟨p, hp, rfl⟩
      have hpm : p ∈ buildDict r2 := List.mem_of_mem_filter hp
      constructor
      · intro hcon
        simp at hcon
      · intro _
        show ((r2.filter (fun s => normalize_text s.text == p.1)).getLast?).map
          TextRegion.bbox = some p.2.bbox
        rw [hv2 p hpm]
        rfl

/-- C10 witness: two regions whose texts "a" and " a " normalize to the
same string produce a single removed diff carrying the second region's
bounding box. -/
theorem text_diff_dedup_witness :
    ((detect_text_diffs [⟨"a", ⟨0, 0, 1, 1⟩, 1⟩, ⟨" a ", ⟨5, 5, 2, 2⟩, 1⟩] []).map
      diffKey).Nodup ∧
    ((([(⟨"a", ⟨0, 0, 1, 1⟩, 1⟩ : TextRegion), ⟨" a ", ⟨5, 5, 2, 2⟩, 1⟩].filter
        (fun s => normalize_text s.text == "a")).getLast?).map TextRegion.bbox =
      some (Bbox.mk 5 5 2 2)) :=
  ⟨(text_diff_dedup [⟨"a", ⟨0, 0, 1, 1⟩, 1⟩, ⟨" a ", ⟨5, 5, 2, 2⟩, 1⟩] []).1,
   ((text_diff_dedup [⟨"a", ⟨0, 0, 1, 1⟩, 1⟩, ⟨" a ", ⟨5, 5, 2, 2⟩, 1⟩] []).2
      ⟨"a", "", ⟨5, 5, 2, 2⟩, "removed"⟩ (by decide)).1 rfl⟩

end WebSnapshots
